import Mathlib

/-!
Verification development for the Gemini Computer Use browser agent
(`main.py` and `local_test.py`).

The Python source is shallowly embedded: pure helpers become Lean
functions on `Nat`/`Int`/`String`/lists, the Playwright browser session
becomes an explicit state carrying the current URL and a trace of the
primitive input events that were dispatched to it, the Gemini model
becomes a script (one structured response per call), and the agent loop
becomes a fuel-indexed recursion over that script.  Machine floats in
`denormalize_x`/`denormalize_y` are modelled bit-exactly: an IEEE-754
binary64 value in the range handled by the code is represented as an
integer numerator over `2 ^ 62`, and each arithmetic step is rounded to
53 significant bits with round-half-to-even, exactly as the hardware
rounds the corresponding Python expression.
-/

/-! ### Constants from `main.py` (lines 18-68) -/

def SCREEN_WIDTH : Nat := 1440

def SCREEN_HEIGHT : Nat := 900

def MAX_RECENT_TURNS_WITH_SCREENSHOTS : Nat := 3

def PREDEFINED_COMPUTER_USE_FUNCTIONS : List String :=
  ["open_web_browser", "click_at", "hover_at", "type_text_at", "scroll_document",
   "scroll_at", "wait_5_seconds", "go_back", "go_forward", "search", "navigate",
   "key_combination", "drag_and_drop"]

def PLAYWRIGHT_KEY_MAP : List (String × String) :=
  [("backspace", "Backspace"), ("tab", "Tab"), ("return", "Enter"), ("enter", "Enter"),
   ("shift", "Shift"), ("control", "Control"), ("alt", "Alt"), ("escape", "Escape"),
   ("space", "Space"), ("pageup", "PageUp"), ("pagedown", "PageDown"), ("end", "End"),
   ("home", "Home"), ("left", "ArrowLeft"), ("up", "ArrowUp"), ("right", "ArrowRight"),
   ("down", "ArrowDown"), ("insert", "Insert"), ("delete", "Delete"),
   ("f1", "F1"), ("f2", "F2"), ("f3", "F3"), ("f4", "F4"), ("f5", "F5"), ("f6", "F6"),
   ("f7", "F7"), ("f8", "F8"), ("f9", "F9"), ("f10", "F10"), ("f11", "F11"),
   ("f12", "F12"), ("command", "Meta"), ("meta", "Meta")]

/-! ### String helpers mirroring the Python methods used by the source

All of them work on `List Char` internally so that every proof and
witness can be discharged by kernel evaluation.  `pyLowerChar` is
`str.lower` restricted to ASCII, which covers every key name the alias
table can match.
-/

def pyLowerChar (c : Char) : Char :=
  if 'A' ≤ c ∧ c ≤ 'Z' then Char.ofNat (c.toNat + 32) else c

def pyLower (s : String) : String :=
  String.mk (s.toList.map pyLowerChar)

/-- `"a+b+c".split("+")` from Python: never returns an empty list
(the empty string splits to `[""]`). -/
def splitPlusAux : List Char → List Char → List String
  | [], acc => [String.mk acc.reverse]
  | c :: rest, acc =>
    if c = '+' then String.mk acc.reverse :: splitPlusAux rest []
    else splitPlusAux rest (c :: acc)

def pySplitPlus (s : String) : List String :=
  splitPlusAux s.toList []

/-- `" ".join(parts)` from Python. -/
def joinSpace : List String → String
  | [] => ""
  | [s] => s
  | s :: rest => s ++ " " ++ joinSpace rest

def listStartsWith : List Char → List Char → Bool
  | [], _ => true
  | _ :: _, [] => false
  | p :: ps, c :: cs => p = c && listStartsWith ps cs

/-- `s.startswith(pre)` from Python. -/
def pyStartsWith (s pre : String) : Bool :=
  listStartsWith pre.toList s.toList

/-! ### Key-Combination Resolver (`execute_key_combination`, `main.py` lines 149-164)

The side effect on `page.keyboard` is reified as the ordered list of
dispatched key events.
-/

inductive KeyEvent where
  | down (key : String)
  | press (key : String)
  | up (key : String)
deriving DecidableEq

/-- `PLAYWRIGHT_KEY_MAP.get(k.lower(), k)` from line 153: lower-case the
token, look it up, fall back to the original token. -/
def resolveKey (k : String) : String :=
  match PLAYWRIGHT_KEY_MAP.find? (fun p => p.1 == pyLower k) with
  | some p => p.2
  | none => k

/-- `main.py` lines 149-164: split on `+`, resolve each token, hold all
but the last, press the last, release the held keys in reverse order. -/
def execute_key_combination (keys_str : String) : List KeyEvent :=
  let keys := (pySplitPlus keys_str).map resolveKey
  (keys.dropLast.map KeyEvent.down)
    ++ [KeyEvent.press (keys.getLastD "")]
    ++ (keys.dropLast.reverse.map KeyEvent.up)

/-! ### Bit-exact model of the float arithmetic in `denormalize_x`/`denormalize_y`

`main.py` line 96 computes `int(x / 1000 * SCREEN_WIDTH)` in IEEE-754
binary64.  For the values that reach it, every intermediate result lies
in `(2 ^ (-10), 2 ^ 11)`, so each double is represented exactly as
`m / 2 ^ 62` with `m : Nat`.  `fl62 a b` is the nearest double to `a / b`
(ties to even) in that representation; applying it after the division
and after the multiplication reproduces the hardware result exactly.
-/

def TWO62 : Nat := 4611686018427387904

/-- `⌊log2 n⌋` (0 for `n = 0`) by binary descent against literal powers
of two; exact for every `n < 2 ^ 128`, far beyond the range the
coordinate pipeline produces. -/
def natLog2 (n : Nat) : Nat :=
  let s1 := if 18446744073709551616 ≤ n then ((n / 18446744073709551616 : Nat), (64 : Nat)) else (n, 0)
  let s2 := if 4294967296 ≤ s1.1 then ((s1.1 / 4294967296 : Nat), (32 : Nat)) else (s1.1, 0)
  let s3 := if 65536 ≤ s2.1 then ((s2.1 / 65536 : Nat), (16 : Nat)) else (s2.1, 0)
  let s4 := if 256 ≤ s3.1 then ((s3.1 / 256 : Nat), (8 : Nat)) else (s3.1, 0)
  let s5 := if 16 ≤ s4.1 then ((s4.1 / 16 : Nat), (4 : Nat)) else (s4.1, 0)
  let s6 := if 4 ≤ s5.1 then ((s5.1 / 4 : Nat), (2 : Nat)) else (s5.1, 0)
  let s7 := if 2 ≤ s6.1 then (1 : Nat) else 0
  s1.2 + s2.2 + s3.2 + s4.2 + s5.2 + s6.2 + s7

/-- Round `a / b` (with `b > 0`) to the nearest integer, ties to even. -/
def rhe (a b : Nat) : Nat :=
  let q := a / b
  let r := a % b
  if b < 2 * r then q + 1
  else if 2 * r < b then q
  else if q % 2 = 0 then q else q + 1

/-- Nearest binary64 to `a / b` as a numerator over `2 ^ 62`; exact for
`2 ^ (-10) ≤ a / b < 2 ^ 11`, the range used by the coordinate code
(`t` is then at most 11, so `2 ^ t` divides `TWO62`). -/
def fl62 (a b : Nat) : Nat :=
  let scaled := a * TWO62 / b
  let e62 := natLog2 scaled
  let t := e62 - 52
  let p := Nat.shiftLeft 1 t
  rhe (a * (TWO62 / p)) b * p

/-- `int(x / 1000 * extent)` computed in binary64, for `x, extent : Nat`. -/
def denormalize_scaled (x extent : Nat) : Nat :=
  if x = 0 then 0 else fl62 (fl62 x 1000 * extent) TWO62 / TWO62

/-- `main.py` lines 94-96. -/
def denormalize_x (x : Nat) : Nat := denormalize_scaled x SCREEN_WIDTH

/-- `main.py` lines 99-101. -/
def denormalize_y (y : Nat) : Nat := denormalize_scaled y SCREEN_HEIGHT

/-- The same conversion on `Int` coordinates (float rounding and `int`
truncation are both symmetric around zero). -/
def denormalize_x_int (n : Int) : Int :=
  if 0 ≤ n then (denormalize_x n.toNat : Int) else -(denormalize_x (-n).toNat : Int)

def denormalize_y_int (n : Int) : Int :=
  if 0 ≤ n then (denormalize_y n.toNat : Int) else -(denormalize_y (-n).toNat : Int)

/-! ### Action arguments

`function_call.args` is a JSON-ish mapping.  The loop only ever reads
scalar fields (coordinates, strings, booleans, the magnitude) plus the
truthiness of `safety_decision` (a sub-object, represented by its string
entries), so argument values are modelled by the flat type `AValue`.
-/

inductive AValue where
  | null
  | bool (b : Bool)
  | num (q : Rat)
  | str (s : String)
  | dict (entries : List (String × String))
deriving DecidableEq

abbrev Args := List (String × AValue)

/-- Python truthiness of an argument value. -/
def AValue.truthy : AValue → Bool
  | .null => false
  | .bool b => b
  | .num q => q ≠ 0
  | .str s => s ≠ ""
  | .dict entries => !entries.isEmpty

/-- `args.get(key)` (first binding wins, as in a dict with unique keys). -/
def getArg (args : Args) (key : String) : Option AValue :=
  match args.find? (fun p => p.1 == key) with
  | some p => some p.2
  | none => none

/-- `args[key]` read as an integer coordinate: a missing key raises
`KeyError`, a non-numeric value raises `TypeError` inside the arithmetic
(Python bools are integers). -/
def getIntArg (args : Args) (key : String) : Except String Int :=
  match getArg args key with
  | none => .error ("KeyError: " ++ key)
  | some (.num q) =>
    if q.den = 1 then .ok q.num else .error ("non-integer value for " ++ key)
  | some (.bool b) => .ok (if b then 1 else 0)
  | some _ => .error ("TypeError: " ++ key)

/-- `args[key]` read as a string (`KeyError` when missing, and the string
methods the source calls on it raise on any other type). -/
def getStrArg (args : Args) (key : String) : Except String String :=
  match getArg args key with
  | none => .error ("KeyError: " ++ key)
  | some (.str s) => .ok s
  | some _ => .error ("TypeError: " ++ key)

/-- `args.get(key, default)` used as a boolean (`if clear_before:` tests
truthiness). -/
def getTruthyArg (args : Args) (key : String) (dflt : Bool) : Bool :=
  match getArg args key with
  | none => dflt
  | some v => v.truthy

/-- `args.get("magnitude", 800)` from line 380. -/
def getMagnitudeArg (args : Args) : Except String Int :=
  match getArg args "magnitude" with
  | none => .ok 800
  | some (.num q) =>
    if q.den = 1 then .ok q.num else .error ("non-integer magnitude")
  | some (.bool b) => .ok (if b then 1 else 0)
  | some _ => .error ("TypeError: magnitude")

/-! ### Browser session

The Playwright page is abstracted as the current URL plus the trace of
primitive operations dispatched to it, in order.  A screenshot is an
opaque token of the page state at capture time (URL and trace length),
which is all any claim inspects.
-/

inductive BrowserOp where
  | click (x y : Int)
  | move (x y : Int)
  | wheel (dx dy : Int)
  | mouseDown
  | mouseUp
  | key (e : KeyEvent)
  | typeText (s : String)
  | goto (url : String)
  | goBack
  | goForward
  | evalScrollBy (dx dy : Int)
  | sleepTenths (t : Nat)
  | waitForLoadState
deriving DecidableEq

structure Browser where
  url : String
  trace : List BrowserOp
deriving DecidableEq

def applyOp (b : Browser) (op : BrowserOp) : Browser :=
  match op with
  | .goto u => { url := u, trace := b.trace ++ [op] }
  | _ => { b with trace := b.trace ++ [op] }

def applyOps (b : Browser) (ops : List BrowserOp) : Browser :=
  ops.foldl applyOp b

structure Blob where
  mime : String
  data : Nat
deriving DecidableEq

/-- `page.screenshot(type="png")`. -/
def shoot (b : Browser) : Blob :=
  { mime := "image/png", data := b.trace.length }

def keyOps (chord : String) : List BrowserOp :=
  (execute_key_combination chord).map BrowserOp.key

/-! ### Action dispatch (`main.py` lines 328-444)

One action translates to the list of browser primitives it dispatches,
in order, plus an optional caught-exception message (`err`) and the
warnings it logs.  When an exception interrupts an action mid-way
(possible only in `type_text_at`, where `args["text"]` is read after the
click), `ops` holds exactly the primitives dispatched before the raise.
-/

structure DispatchOut where
  ops : List BrowserOp
  err : Option String
  warnings : List String
deriving DecidableEq

def dispatchAction (action_name : String) (args : Args) : DispatchOut :=
  if action_name = "open_web_browser" then
    { ops := [], err := none, warnings := [] }
  else if action_name = "click_at" then
    match getIntArg args "x" with
    | .error e => { ops := [], err := some e, warnings := [] }
    | .ok x =>
      match getIntArg args "y" with
      | .error e => { ops := [], err := some e, warnings := [] }
      | .ok y =>
        { ops := [BrowserOp.click (denormalize_x_int x) (denormalize_y_int y)],
          err := none, warnings := [] }
  else if action_name = "hover_at" then
    match getIntArg args "x" with
    | .error e => { ops := [], err := some e, warnings := [] }
    | .ok x =>
      match getIntArg args "y" with
      | .error e => { ops := [], err := some e, warnings := [] }
      | .ok y =>
        { ops := [BrowserOp.move (denormalize_x_int x) (denormalize_y_int y)],
          err := none, warnings := [] }
  else if action_name = "type_text_at" then
    match getIntArg args "x" with
    | .error e => { ops := [], err := some e, warnings := [] }
    | .ok x =>
      match getIntArg args "y" with
      | .error e => { ops := [], err := some e, warnings := [] }
      | .ok y =>
        let clickOps :=
          [BrowserOp.click (denormalize_x_int x) (denormalize_y_int y),
           BrowserOp.waitForLoadState]
        let clearOps :=
          if getTruthyArg args "clear_before_typing" true then
            keyOps ("Control+A") ++ keyOps ("Delete")
          else []
        match getStrArg args "text" with
        | .error e => { ops := clickOps ++ clearOps, err := some e, warnings := [] }
        | .ok text =>
          let enterOps :=
            if getTruthyArg args "press_enter" false then keyOps ("Enter") else []
          { ops := clickOps ++ clearOps
              ++ [BrowserOp.typeText text, BrowserOp.waitForLoadState] ++ enterOps,
            err := none, warnings := [] }
  else if action_name = "scroll_document" then
    match getArg args "direction" with
    | none => { ops := [], err := some ("KeyError: direction"), warnings := [] }
    | some direction =>
      let ops :=
        if direction = AValue.str ("down") then keyOps ("PageDown")
        else if direction = AValue.str ("up") then keyOps ("PageUp")
        else if direction = AValue.str ("left") then
          [BrowserOp.evalScrollBy (-(SCREEN_WIDTH / 2 : Nat) : Int) 0]
        else if direction = AValue.str ("right") then
          [BrowserOp.evalScrollBy ((SCREEN_WIDTH / 2 : Nat) : Int) 0]
        else []
      { ops := ops, err := none, warnings := [] }
  else if action_name = "scroll_at" then
    match getIntArg args "x" with
    | .error e => { ops := [], err := some e, warnings := [] }
    | .ok x =>
      match getIntArg args "y" with
      | .error e => { ops := [], err := some e, warnings := [] }
      | .ok y =>
        match getStrArg args "direction" with
        | .error e => { ops := [], err := some e, warnings := [] }
        | .ok direction =>
          match getMagnitudeArg args with
          | .error e => { ops := [], err := some e, warnings := [] }
          | .ok magnitude =>
            let magnitude :=
              if direction = "up" ∨ direction = "down" then denormalize_y_int magnitude
              else denormalize_x_int magnitude
            let delta : Int × Int :=
              if direction = "up" then (0, -magnitude)
              else if direction = "down" then (0, magnitude)
              else if direction = "left" then (-magnitude, 0)
              else if direction = "right" then (magnitude, 0)
              else (0, 0)
            { ops := [BrowserOp.move (denormalize_x_int x) (denormalize_y_int y),
                      BrowserOp.wheel delta.1 delta.2],
              err := none, warnings := [] }
  else if action_name = "navigate" then
    match getStrArg args "url" with
    | .error e => { ops := [], err := some e, warnings := [] }
    | .ok url =>
      let url :=
        if pyStartsWith url ("http://") || pyStartsWith url ("https://") then url
        else "https://" ++ url
      { ops := [BrowserOp.goto url], err := none, warnings := [] }
  else if action_name = "search" then
    { ops := [BrowserOp.goto ("https://www.google.com")], err := none, warnings := [] }
  else if action_name = "go_back" then
    { ops := [BrowserOp.goBack], err := none, warnings := [] }
  else if action_name = "go_forward" then
    { ops := [BrowserOp.goForward], err := none, warnings := [] }
  else if action_name = "wait_5_seconds" then
    { ops := [BrowserOp.sleepTenths 50], err := none, warnings := [] }
  else if action_name = "key_combination" then
    match getStrArg args "keys" with
    | .error e => { ops := [], err := some e, warnings := [] }
    | .ok keys => { ops := keyOps keys, err := none, warnings := [] }
  else if action_name = "drag_and_drop" then
    match getIntArg args "x" with
    | .error e => { ops := [], err := some e, warnings := [] }
    | .ok x =>
      match getIntArg args "y" with
      | .error e => { ops := [], err := some e, warnings := [] }
      | .ok y =>
        match getIntArg args "destination_x" with
        | .error e => { ops := [], err := some e, warnings := [] }
        | .ok dx =>
          match getIntArg args "destination_y" with
          | .error e => { ops := [], err := some e, warnings := [] }
          | .ok dy =>
            { ops := [BrowserOp.move (denormalize_x_int x) (denormalize_y_int y),
                      BrowserOp.waitForLoadState, BrowserOp.mouseDown,
                      BrowserOp.waitForLoadState,
                      BrowserOp.move (denormalize_x_int dx) (denormalize_y_int dy),
                      BrowserOp.waitForLoadState, BrowserOp.mouseUp],
              err := none, warnings := [] }
  else
    { ops := [], err := none, warnings := ["Unknown action: " ++ action_name] }

/-! ### Conversation data model (`google.genai.types` as used by the source)

A `Part` is one segment of a turn: free text, an inline image, a model
action request (`function_call`), or an action result
(`function_response`).  `FunctionResponse.parts` is the optional list of
response blobs (the screenshot); `cleanup_old_screenshots` sets it to
`none`.
-/

structure FunctionCall where
  name : String
  args : Option Args
deriving DecidableEq

structure FunctionResponse where
  name : String
  response : List (String × String)
  parts : Option (List Blob)
deriving DecidableEq

structure GPart where
  text : Option String := none
  inline : Option Blob := none
  function_call : Option FunctionCall := none
  function_response : Option FunctionResponse := none
deriving DecidableEq

inductive Role where
  | user
  | model
deriving DecidableEq

structure Content where
  role : Role
  parts : List GPart
deriving DecidableEq

def mkTextPart (t : String) : GPart := { text := some t }

def mkInlinePart (b : Blob) : GPart := { inline := some b }

def mkFCPart (name : String) (args : Args) : GPart :=
  { function_call := some { name := name, args := some args } }

def mkFRPart (fr : FunctionResponse) : GPart := { function_response := some fr }

/-! ### Per-action processing (`main.py` lines 306-464)

For each part that carries a `function_call`: log an `ActionRecord`,
compute the safety acknowledgement, run the dispatched primitives (the
post-action `wait_for_load_state` + 0.5 s settle runs only when no
exception was raised, since it sits inside the `try`), then capture a
screenshot unconditionally and build the `FunctionResponse`.
-/

structure ActionRecord where
  action : String
  args : Args
deriving DecidableEq

def mkActionRecord (fc : FunctionCall) : ActionRecord :=
  { action := fc.name, args := fc.args.getD [] }

def processFunctionCall (b : Browser) (fc : FunctionCall) :
    Browser × ActionRecord × FunctionResponse :=
  let args := fc.args.getD []
  let record := mkActionRecord fc
  let extra :=
    if (getArg args "safety_decision").elim false AValue.truthy then
      [("safety_acknowledgement", "true")]
    else []
  let d := dispatchAction fc.name args
  let settleOps :=
    if d.err.isNone then [BrowserOp.waitForLoadState, BrowserOp.sleepTenths 5] else []
  let b1 := applyOps b (d.ops ++ settleOps)
  let fr : FunctionResponse :=
    { name := fc.name,
      response := [("url", b1.url)] ++ extra,
      parts := some [shoot b1] }
  (b1, record, fr)

/-- The `for part in candidate.content.parts` loop: action requests run
left to right; records and function responses accumulate in that order. -/
def processParts : Browser → List GPart → Browser × List ActionRecord × List FunctionResponse
  | b, [] => (b, [], [])
  | b, p :: rest =>
    match p.function_call with
    | none => processParts b rest
    | some fc =>
      let step := processFunctionCall b fc
      let tail := processParts step.1 rest
      (tail.1, step.2.1 :: tail.2.1, step.2.2 :: tail.2.2)

/-- Lines 467-472: the initiator turn bundling this round's results. -/
def functionResponsesContent (frs : List FunctionResponse) : Content :=
  { role := .user, parts := frs.map mkFRPart }

/-! ### Conversation History Manager (`cleanup_old_screenshots`, lines 125-147) -/

/-- Python truthiness of `function_response.parts`: present and
non-empty. -/
def frPartsTruthy : Option (List Blob) → Bool
  | some (_ :: _) => true
  | _ => false

/-- Line 133-135: a part counts as carrying a screenshot when its
function response has a non-empty `parts` payload and a predefined name. -/
def partQualifies (p : GPart) : Bool :=
  match p.function_response with
  | none => false
  | some fr =>
    frPartsTruthy fr.parts && decide (fr.name ∈ PREDEFINED_COMPUTER_USE_FUNCTIONS)

/-- Line 130-137: a user turn with a non-empty part list, at least one
part of which qualifies. -/
def contentHasScreenshot (c : Content) : Bool :=
  c.role == .user && !c.parts.isEmpty && c.parts.any partQualifies

/-- Line 146 applied to one part: `part.function_response.parts = None`
when the part qualifies. -/
def clearPart (p : GPart) : GPart :=
  if partQualifies p then
    { p with function_response := p.function_response.map fun fr => { fr with parts := none } }
  else p

/-- Lines 142-146: null out the screenshot payload of every qualifying
part of the turn. -/
def clearScreenshotParts (c : Content) : Content :=
  { c with parts := c.parts.map clearPart }

/-- The `for content in reversed(contents)` scan with its running
counter; the argument list here is the reversed conversation. -/
def cleanupAux : Nat → List Content → List Content
  | _, [] => []
  | n, c :: rest =>
    if contentHasScreenshot c then
      (if MAX_RECENT_TURNS_WITH_SCREENSHOTS < n + 1 then clearScreenshotParts c else c)
        :: cleanupAux (n + 1) rest
    else c :: cleanupAux n rest

/-- `cleanup_old_screenshots` (lines 125-147) as a pure transform of the
conversation (the source mutates in place). -/
def cleanup_old_screenshots (contents : List Content) : List Content :=
  (cleanupAux 0 contents.reverse).reverse

/-! ### Agent loop (`execute_browser_task`, lines 167-486)

The Gemini model is a script: call number `k` of
`get_model_response` yields `model k`, either an exception that survived
the retries (`.err`) or a structured response.  Remote failure modes
inside one `get_model_response` call are already folded into that value.
-/

structure Candidate where
  content : Option Content
  finishReason : Option String
deriving DecidableEq

structure MResponse where
  candidates : List Candidate
deriving DecidableEq

inductive ModelResult where
  | err (msg : String)
  | ok (resp : MResponse)
deriving DecidableEq

inductive Status where
  | in_progress
  | completed
  | error
deriving DecidableEq

structure ResultSt where
  status : Status
  actions_taken : List ActionRecord
  final_url : String
  final_response : String
  final_screenshot : Option Blob
deriving DecidableEq

structure LoopState where
  contents : List Content
  result : ResultSt
  browser : Browser
  calls : Nat
deriving DecidableEq

inductive StepResult where
  | stop (st : LoopState)
  | next (st : LoopState)
deriving DecidableEq

def candParts (cand : Candidate) : List GPart :=
  (cand.content.map Content.parts).getD []

def partsHaveFC (ps : List GPart) : Bool :=
  ps.any fun p => p.function_call.isSome

/-- Line 292: keep only truthy (non-empty) text segments. -/
def truthyText (p : GPart) : Option String :=
  match p.text with
  | some t => if t = "" then none else some t
  | none => none

/-- One iteration of the `for turn in range(...)` body, lines 250-475.
`.stop` is a `break` (or the end of the function), `.next` a `continue`
or fall-through.  The `MALFORMED_FUNCTION_CALL` test mirrors lines
276-279 for candidates that carry content (on a content-less malformed
candidate CPython would raise an `AttributeError` inside the generator
expression; no claim exercises that corner and it is treated as the
retry path here). -/
def loopStep (m : ModelResult) (st : LoopState) : StepResult :=
  match m with
  | .err e =>
    .stop { st with result :=
      { st.result with status := .error, final_response := "API error: " ++ e } }
  | .ok resp =>
    match resp.candidates with
    | [] =>
      .stop { st with result :=
        { st.result with status := .error, final_response := "Empty response from model" } }
    | cand :: _ =>
      let contents1 :=
        match cand.content with
        | some c => st.contents ++ [c]
        | none => st.contents
      let ps := candParts cand
      if cand.finishReason = some ("MALFORMED_FUNCTION_CALL") ∧ partsHaveFC ps = false then
        .next { st with contents := contents1 }
      else if partsHaveFC ps = false then
        let res1 := { st.result with
          status := Status.completed,
          final_response := joinSpace (ps.filterMap truthyText) }
        .stop { st with contents := contents1, result := res1 }
      else
        let turn := processParts st.browser ps
        .next { st with
          contents := cleanup_old_screenshots
            (contents1 ++ [functionResponsesContent turn.2.2]),
          browser := turn.1,
          result := { st.result with
            actions_taken := st.result.actions_taken ++ turn.2.1 } }

def agentLoop (model : Nat → ModelResult) : Nat → LoopState → LoopState
  | 0, st => st
  | fuel + 1, st =>
    match loopStep (model st.calls) { st with calls := st.calls + 1 } with
    | .stop st1 => st1
    | .next st1 => agentLoop model fuel st1

/-- Lines 205-244: navigate to Google, settle, screenshot, seed the
conversation with the task text plus the initial screenshot, and start
the result in `in_progress`. -/
def initLoopState (task : String) : LoopState :=
  let b0 := applyOps { url := "about:blank", trace := [] }
    [BrowserOp.goto ("https://www.google.com"), BrowserOp.waitForLoadState,
     BrowserOp.sleepTenths 5]
  { contents := [{ role := .user, parts := [mkTextPart task, mkInlinePart (shoot b0)] }],
    result := { status := .in_progress, actions_taken := [], final_url := "",
                final_response := "", final_screenshot := none },
    browser := b0,
    calls := 0 }

/-- `execute_browser_task` (lines 167-486): 15-turn agent loop, then the
final screenshot and URL are captured into the result regardless of how
the loop exited. -/
def execute_browser_task (model : Nat → ModelResult) (task : String) : ResultSt :=
  let stF := agentLoop model 15 (initLoopState task)
  { stF.result with
    final_screenshot := some (shoot stF.browser),
    final_url := stF.browser.url }

/-! ### Structured-result extraction (`extract_structured_data_from_response`, lines 674-740)

The regex `\x7b[^\x7b\x7d]*"roi_percentage"[^\x7b\x7d]*\x7d` is
deterministic: the interior may not contain braces, so a match starting
at some `{` must close at the very next brace character, which must be
`}` and whose interior must contain the quoted key; `re.search` takes
the leftmost such `{`.  Likewise in
`roi[_\s]*percentage[:\s]*(\d+)` the character classes cannot overlap
the literal that follows them or the digits, so each `*` is forced to
the maximal run and the capture is the maximal digit run.
-/

def isBraceChar (c : Char) : Bool := c = '\x7b' ∨ c = '\x7d'

/-- Split off the longest brace-free prefix, the first brace character,
and the rest. -/
def nextBraceSplit : List Char → Option (List Char × Char × List Char)
  | [] => none
  | c :: rest =>
    if isBraceChar c then some ([], c, rest)
    else
      match nextBraceSplit rest with
      | some (pre, b, post) => some (c :: pre, b, post)
      | none => none

def listContainsSub (needle : List Char) : List Char → Bool
  | [] => listStartsWith needle []
  | hay@(_ :: t) => listStartsWith needle hay || listContainsSub needle t

def roiKeyChars : List Char := ("\"roi_percentage\"").toList

/-- `re.search(r'\x7b[^\x7b\x7d]*"roi_percentage"[^\x7b\x7d]*\x7d', s)` -/
def findJsonCandidate : List Char → Option (List Char)
  | [] => none
  | c :: rest =>
    let here : Option (List Char) :=
      if c = '\x7b' then
        match nextBraceSplit rest with
        | some (interior, b, _) =>
          if b = '\x7d' ∧ listContainsSub roiKeyChars interior then
            some (c :: (interior ++ ['\x7d']))
          else none
        | none => none
      else none
    match here with
    | some m => some m
    | none => findJsonCandidate rest

/-! A small `json.loads` sufficient for the brace-free-interior
candidates selected above (so no nested objects can occur; arrays,
strings with escapes, numbers, booleans and null are supported). -/

/-- An exact decimal `(-1)^neg * mant * 10^exp`, the value space of the
JSON/`float` numbers the extraction handles. -/
structure DecNum where
  neg : Bool
  mant : Nat
  exp : Int
deriving DecidableEq

inductive Json where
  | null
  | bool (b : Bool)
  | num (v : DecNum)
  | str (s : String)
  | arr (elems : List Json)
  | obj (fields : List (String × Json))

def jsonWs (c : Char) : Bool := c = ' ' ∨ c = '\t' ∨ c = '\n' ∨ c = '\r'

def skipRun (f : Char → Bool) : List Char → List Char
  | [] => []
  | c :: rest => if f c then skipRun f rest else c :: rest

def takeRun (f : Char → Bool) : List Char → List Char × List Char
  | [] => ([], [])
  | c :: rest =>
    if f c then
      let t := takeRun f rest
      (c :: t.1, t.2)
    else ([], c :: rest)

def isDigitChar (c : Char) : Bool := '0' ≤ c ∧ c ≤ '9'

def digitsToNat (ds : List Char) : Nat :=
  ds.foldl (fun acc c => acc * 10 + (c.toNat - 48)) 0

def hexVal (c : Char) : Option Nat :=
  if '0' ≤ c ∧ c ≤ '9' then some (c.toNat - 48)
  else if 'a' ≤ c ∧ c ≤ 'f' then some (c.toNat - 87)
  else if 'A' ≤ c ∧ c ≤ 'F' then some (c.toNat - 55)
  else none

/-- JSON string body after the opening quote (control characters are
rejected, standard escapes decoded). -/
def parseJStringAux : Nat → List Char → List Char → Option (String × List Char)
  | 0, _, _ => none
  | _ + 1, _, [] => none
  | fuel + 1, acc, c :: rest =>
    if c = '"' then some (String.mk acc.reverse, rest)
    else if c.toNat < 32 then none
    else if c = '\\' then
      match rest with
      | [] => none
      | e :: rest2 =>
        if e = '"' then parseJStringAux fuel ('"' :: acc) rest2
        else if e = '\\' then parseJStringAux fuel ('\\' :: acc) rest2
        else if e = '/' then parseJStringAux fuel ('/' :: acc) rest2
        else if e = 'b' then parseJStringAux fuel (Char.ofNat 8 :: acc) rest2
        else if e = 'f' then parseJStringAux fuel (Char.ofNat 12 :: acc) rest2
        else if e = 'n' then parseJStringAux fuel ('\n' :: acc) rest2
        else if e = 'r' then parseJStringAux fuel ('\r' :: acc) rest2
        else if e = 't' then parseJStringAux fuel ('\t' :: acc) rest2
        else if e = 'u' then
          match rest2 with
          | h1 :: h2 :: h3 :: h4 :: rest3 =>
            match hexVal h1, hexVal h2, hexVal h3, hexVal h4 with
            | some v1, some v2, some v3, some v4 =>
              parseJStringAux fuel
                (Char.ofNat (((v1 * 16 + v2) * 16 + v3) * 16 + v4) :: acc) rest3
            | _, _, _, _ => none
          | _ => none
        else none
    else parseJStringAux fuel (c :: acc) rest

/-- JSON number: `-? int frac? exp?` with no leading zeros, as an exact
rational. -/
def parseJNumber (s : List Char) : Option (DecNum × List Char) :=
  let (neg, s1) :=
    match s with
    | c :: rest => if c = '-' then (true, rest) else (false, s)
    | [] => (false, s)
  let (intDs, s2) := takeRun isDigitChar s1
  if intDs.isEmpty then none
  else if 1 < intDs.length ∧ intDs.headD '0' = '0' then none
  else
    let (fracDs, s3) :=
      match s2 with
      | c :: rest =>
        if c = '.' then
          let t := takeRun isDigitChar rest
          (t.1, t.2)
        else ([], s2)
      | [] => ([], s2)
    let hasDot : Bool := match s2 with | c :: _ => c = '.' | [] => false
    if hasDot ∧ fracDs.isEmpty then none
    else
      let expPart : Option (Int × List Char) :=
        match s3 with
        | c :: rest =>
          if c = 'e' ∨ c = 'E' then
            let (esign, rest2) :=
              match rest with
              | d :: rest3 =>
                if d = '-' then ((-1 : Int), rest3)
                else if d = '+' then ((1 : Int), rest3)
                else ((1 : Int), rest)
              | [] => ((1 : Int), rest)
            let t := takeRun isDigitChar rest2
            if t.1.isEmpty then none else some (esign * (digitsToNat t.1 : Int), t.2)
          else some (0, s3)
        | [] => some (0, s3)
      match expPart with
      | none => none
      | some (ex, s4) =>
        some ({ neg := neg, mant := digitsToNat (intDs ++ fracDs),
                exp := ex - (fracDs.length : Int) }, s4)

mutual

/-- One JSON value (no leading whitespace). -/
def parseJValue : Nat → List Char → Option (Json × List Char)
  | 0, _ => none
  | _ + 1, [] => none
  | fuel + 1, s@(c :: rest) =>
    if c = '"' then
      match parseJStringAux (rest.length + 1) [] rest with
      | some (str, rest2) => some (.str str, rest2)
      | none => none
    else if c = '\x7b' then
      match skipRun jsonWs rest with
      | '\x7d' :: rest2 => some (.obj [], rest2)
      | rest2 => (parseJFields fuel rest2).map fun t => (.obj t.1, t.2)
    else if c = '[' then
      match skipRun jsonWs rest with
      | ']' :: rest2 => some (.arr [], rest2)
      | rest2 => (parseJElems fuel rest2).map fun t => (.arr t.1, t.2)
    else if listStartsWith ("null").toList s then some (.null, s.drop 4)
    else if listStartsWith ("true").toList s then some (.bool true, s.drop 4)
    else if listStartsWith ("false").toList s then some (.bool false, s.drop 5)
    else
      match parseJNumber s with
      | some (q, rest2) => some (.num q, rest2)
      | none => none

/-- Comma-separated `"key": value` list up to the closing brace. -/
def parseJFields : Nat → List Char → Option (List (String × Json) × List Char)
  | 0, _ => none
  | _ + 1, [] => none
  | fuel + 1, s =>
    match s with
    | '"' :: rest =>
      match parseJStringAux (rest.length + 1) [] rest with
      | none => none
      | some (key, rest2) =>
        match skipRun jsonWs rest2 with
        | ':' :: rest3 =>
          match parseJValue fuel (skipRun jsonWs rest3) with
          | none => none
          | some (v, rest4) =>
            match skipRun jsonWs rest4 with
            | ',' :: rest5 =>
              (parseJFields fuel (skipRun jsonWs rest5)).map fun t =>
                ((key, v) :: t.1, t.2)
            | '\x7d' :: rest5 => some ([(key, v)], rest5)
            | _ => none
        | _ => none
    | _ => none

/-- Comma-separated value list up to the closing bracket. -/
def parseJElems : Nat → List Char → Option (List Json × List Char)
  | 0, _ => none
  | _ + 1, [] => none
  | fuel + 1, s =>
    match parseJValue fuel s with
    | none => none
    | some (v, rest) =>
      match skipRun jsonWs rest with
      | ',' :: rest2 => (parseJElems fuel (skipRun jsonWs rest2)).map fun t => (v :: t.1, t.2)
      | ']' :: rest2 => some ([v], rest2)
      | _ => none

end

/-- `json.loads` on the candidate string: a single value with only
whitespace around it. -/
def jsonLoads (s : String) : Option Json :=
  let cs := skipRun jsonWs s.toList
  match parseJValue (cs.length + 1) cs with
  | some (v, rest) => if (skipRun jsonWs rest).isEmpty then some v else none
  | none => none

/-- Python dicts keep the last duplicate key. -/
def lookupLastField (fields : List (String × Json)) (key : String) : Option Json :=
  fields.foldl (fun acc f => if f.1 = key then some f.2 else acc) none

def jsonIsNull : Json → Bool
  | .null => true
  | _ => false

def jsonTruthy : Json → Bool
  | .null => false
  | .bool b => b
  | .num v => v.mant ≠ 0
  | .str s => s ≠ ""
  | .arr elems => !elems.isEmpty
  | .obj fields => !fields.isEmpty

/-- `float(s)` on the string forms the claims exercise: optional sign,
digits with optional decimal point and exponent, surrounded by
whitespace. -/
def parsePyFloat (s : String) : Option DecNum :=
  let cs := skipRun pyWsFloat s.toList
  let (neg, cs1) :=
    match cs with
    | c :: rest => if c = '-' then (true, rest) else if c = '+' then (false, rest) else (false, cs)
    | [] => (false, cs)
  let (intDs, cs2) := takeRun isDigitChar cs1
  let (fracDs, cs3) :=
    match cs2 with
    | c :: rest =>
      if c = '.' then
        let t := takeRun isDigitChar rest
        (t.1, t.2)
      else ([], cs2)
    | [] => ([], cs2)
  if intDs.isEmpty ∧ fracDs.isEmpty then none
  else
    let expPart : Option (Int × List Char) :=
      match cs3 with
      | c :: rest =>
        if c = 'e' ∨ c = 'E' then
          let (esign, rest2) :=
            match rest with
            | d :: rest3 =>
              if d = '-' then ((-1 : Int), rest3)
              else if d = '+' then ((1 : Int), rest3)
              else ((1 : Int), rest)
            | [] => ((1 : Int), rest)
          let t := takeRun isDigitChar rest2
          if t.1.isEmpty then none else some (esign * (digitsToNat t.1 : Int), t.2)
        else some (0, cs3)
      | [] => some (0, cs3)
    match expPart with
    | none => none
    | some (ex, cs4) =>
      if (skipRun pyWsFloat cs4).isEmpty then
        some { neg := neg, mant := digitsToNat (intDs ++ fracDs),
               exp := ex - (fracDs.length : Int) }
      else none
where
  pyWsFloat (c : Char) : Bool :=
    c = ' ' ∨ c = '\t' ∨ c = '\n' ∨ c = '\r' ∨ c = '\x0b' ∨ c = '\x0c'

/-- `int(x)` truncates toward zero. -/
def pyTruncDec (v : DecNum) : Int :=
  let mag : Nat :=
    if 0 ≤ v.exp then v.mant * 10 ^ v.exp.toNat else v.mant / 10 ^ (-v.exp).toNat
  if v.neg then -(mag : Int) else (mag : Int)

/-- `float(v)` over JSON values (bools are Python ints). -/
def jsonToFloat : Json → Option DecNum
  | .num v => some v
  | .bool b => some { neg := false, mant := if b then 1 else 0, exp := 0 }
  | .str s => parsePyFloat s
  | _ => none

/-- Line 711: `int(float(v)) if v else 0`; `none` is a raised
`ValueError`/`TypeError`, which sends the source to the fallback. -/
def convRoiValue (v : Json) : Option Int :=
  if jsonTruthy v = false then some 0
  else (jsonToFloat v).map pyTruncDec

/-- Lines 690-719: the strict JSON path; `none` means fall through to
the regex fallback. -/
def strictExtract (s : String) : Option (Int × Int × Int) :=
  match findJsonCandidate s.toList with
  | none => none
  | some cand =>
    match jsonLoads (String.mk cand) with
    | some (Json.obj fields) =>
      match lookupLastField fields "roi_percentage",
            lookupLastField fields "payback_months",
            lookupLastField fields "annual_savings" with
      | some r, some p, some a =>
        if jsonIsNull r ∨ jsonIsNull p ∨ jsonIsNull a then none
        else
          match convRoiValue r, convRoiValue p, convRoiValue a with
          | some ri, some pi, some ai => some (ri, pi, ai)
          | _, _, _ => none
      | _, _, _ => none
    | _ => none

/-! Fallback regex scans, lines 722-724. -/

def pyWsChar (c : Char) : Bool :=
  c = ' ' ∨ c = '\t' ∨ c = '\n' ∨ c = '\r' ∨ c = '\x0b' ∨ c = '\x0c'

def underscoreWs (c : Char) : Bool := c = '_' ∨ pyWsChar c

def colonWs (c : Char) : Bool := c = ':' ∨ pyWsChar c

def isDigitComma (c : Char) : Bool := isDigitChar c ∨ c = ','

/-- Case-insensitive literal match (pattern given in lowercase),
returning the rest of the input. -/
def matchCI : List Char → List Char → Option (List Char)
  | [], s => some s
  | _ :: _, [] => none
  | p :: ps, c :: cs => if pyLowerChar c = p then matchCI ps cs else none

/-- Try `w1 [_\s]* w2 [:\s]* \$? (capClass+)` at this position. -/
def tryKeyNumAt (w1 w2 : List Char) (dollar : Bool) (capClass : Char → Bool)
    (s : List Char) : Option (List Char) :=
  match matchCI w1 s with
  | none => none
  | some r1 =>
    match matchCI w2 (skipRun underscoreWs r1) with
    | none => none
    | some r2 =>
      let r3 := skipRun colonWs r2
      let r4 :=
        if dollar then
          match r3 with
          | c :: t => if c = '$' then t else r3
          | [] => r3
        else r3
      let cap := (takeRun capClass r4).1
      if cap.isEmpty then none else some cap

/-- Leftmost match of the pattern above, as `re.search` finds it. -/
def searchKeyNum (w1 w2 : List Char) (dollar : Bool) (capClass : Char → Bool) :
    List Char → Option (List Char)
  | [] => none
  | s@(_ :: rest) =>
    match tryKeyNumAt w1 w2 dollar capClass s with
    | some cap => some cap
    | none => searchKeyNum w1 w2 dollar capClass rest

/-- `extract_structured_data_from_response` (lines 674-740). `.error` is
a raised exception with its message. -/
def extract_structured_data_from_response (final_response : String) :
    Except String (Int × Int × Int) :=
  if final_response = "" then .error ("Empty response from Gemini")
  else
    match strictExtract final_response with
    | some t => .ok t
    | none =>
      let cs := final_response.toList
      let roiCap := searchKeyNum ("roi").toList ("percentage").toList false isDigitChar cs
      let pbCap := searchKeyNum ("payback").toList ("period").toList false isDigitChar cs
      let svCap := searchKeyNum ("annual").toList ("savings").toList true isDigitComma cs
      let failMsg :=
        "Could not extract ROI values from response: " ++ String.mk (cs.take 200) ++ "..."
      match svCap with
      | some cap =>
        let ds := cap.filter fun c => c ≠ ','
        if ds.isEmpty then .error ("invalid literal for int() with base 10")
        else
          match roiCap, pbCap with
          | some r, some p =>
            .ok ((digitsToNat r : Int), (digitsToNat p : Int), (digitsToNat ds : Int))
          | _, _ => .error failMsg
      | none =>
        match roiCap, pbCap with
        | _, _ => .error failMsg

/-! ### Shared concrete inputs for witnesses -/

def modelTurn (ps : List GPart) : Content := { role := Role.model, parts := ps }

/-- A response whose single candidate carries the given responder parts. -/
def singleCandidateResponse (ps : List GPart) : ModelResult :=
  .ok { candidates := [{ content := some (modelTurn ps), finishReason := none }] }

def demoBrowser : Browser := { url := "https://www.google.com", trace := [] }

/-- One erroring action (`click_at` with no coordinates raises a
`KeyError`) followed by one successful `navigate`. -/
def demoParts : List GPart :=
  [mkFCPart ("click_at") [],
   mkFCPart ("navigate") [("url", AValue.str ("wikipedia.org"))]]

/-! ## C7 — coordinate denormalization -/

/-- C7 counterexample: the claim says `denormalize(v, E) = ⌊v·E/1000⌋`
for every `v ∈ [0, 999]`, but the source computes `int(v / 1000 * E)` in
binary64 and at `v = 175`, `E = 1440` the product rounds to just below
the exact integer 252, so `int` truncates to 251. -/
theorem c7_denormalize_counterexample :
    denormalize_x 175 = 251 ∧ (175 * 1440 / 1000 : Nat) = 252 := by
  exact ⟨by decide, by decide⟩

set_option maxRecDepth 100000 in
set_option maxHeartbeats 8000000 in
/-- C7 (amended): for every normalized axis value `v ∈ [0, 999]`,
`denormalize_y v = ⌊v·900/1000⌋` exactly, and
`denormalize_x v = ⌊v·1440/1000⌋` except at
`v ∈ {175, 350, 575, 700}` where float rounding makes it one less; the
endpoint facts `denormalize(0, E) = 0` and `denormalize(999, E) < E`
hold as claimed. -/
theorem c7_denormalize_floor_amended :
    (∀ v : Nat, v < 1000 →
      denormalize_y v = v * 900 / 1000 ∧
      denormalize_x v =
        (if v = 175 ∨ v = 350 ∨ v = 575 ∨ v = 700 then v * 1440 / 1000 - 1
         else v * 1440 / 1000)) ∧
    denormalize_x 0 = 0 ∧ denormalize_y 0 = 0 ∧
    denormalize_x 999 < 1440 ∧ denormalize_y 999 < 900 := by
  exact ⟨by decide, by decide, by decide, by decide, by decide⟩

/-- C7 witness: the amended theorem evaluated at `v = 500` (regular
point) and `v = 175` (exceptional point). -/
theorem c7_denormalize_witness :
    denormalize_y 500 = 450 ∧ denormalize_x 175 = 251 := by
  have h1 := c7_denormalize_floor_amended.1 500 (by decide)
  have h2 := c7_denormalize_floor_amended.1 175 (by decide)
  refine ⟨h1.1.trans (by decide), ?_⟩
  have h3 := h2.2
  rw [if_pos (by decide)] at h3
  exact h3.trans (by decide)

/-! ## C2 — key-chord resolution and event order -/

/-- Unfolding of the event sequence for a non-empty token list. -/
theorem chord_events (tokens : List String) (h : tokens ≠ []) :
    ((tokens.map resolveKey).dropLast.map KeyEvent.down)
      ++ [KeyEvent.press ((tokens.map resolveKey).getLastD "")]
      ++ ((tokens.map resolveKey).dropLast.reverse.map KeyEvent.up)
    = (tokens.dropLast.map fun t => KeyEvent.down (resolveKey t))
      ++ [KeyEvent.press (resolveKey (tokens.getLastD ""))]
      ++ (tokens.dropLast.reverse.map fun t => KeyEvent.up (resolveKey t)) := by
  obtain ⟨front, last, rfl⟩ := (List.eq_nil_or_concat tokens).resolve_left h
  simp [List.concat_eq_append, List.dropLast_concat, List.getLastD_concat,
    List.map_append, List.map_map, List.map_reverse, Function.comp_def]

/-- C2: for every key-chord string splitting into the given tokens, each
token resolves by lower-casing and alias lookup with literal fallback,
and the dispatched sequence is key-down for every token but the last in
order, press of the last, then key-up of the held tokens in reverse
order. -/
theorem c2_key_combination (s : String) (tokens : List String)
    (h1 : pySplitPlus s = tokens) (h2 : tokens ≠ []) :
    execute_key_combination s =
      (tokens.dropLast.map fun t => KeyEvent.down (resolveKey t))
        ++ [KeyEvent.press (resolveKey (tokens.getLastD ""))]
        ++ (tokens.dropLast.reverse.map fun t => KeyEvent.up (resolveKey t)) ∧
    (∀ t ∈ tokens,
      resolveKey t =
        match PLAYWRIGHT_KEY_MAP.find? (fun p => p.1 == pyLower t) with
        | some p => p.2
        | none => t) := by
  constructor
  · subst h1
    exact chord_events (pySplitPlus s) h2
  · intro t _
    rfl

/-- C2 witness: `"Control+Shift+A"` yields down Control, down Shift,
press A, up Shift, up Control. -/
theorem c2_key_combination_witness :
    execute_key_combination ("Control+Shift+A") =
      [KeyEvent.down ("Control"), KeyEvent.down ("Shift"), KeyEvent.press ("A"),
       KeyEvent.up ("Shift"), KeyEvent.up ("Control")] := by
  have h := (c2_key_combination ("Control+Shift+A") ["Control", "Shift", "A"]
    (by decide) (by decide)).1
  exact h.trans (by decide)

/-! ## C10 — the action audit log -/

/-- C10: the records accumulated by one responder turn are exactly
`{action := name, args}` for each function call, in processing order,
computed from the request alone — so the log includes every action whose
execution later raised, and grows by exactly one entry per call. -/
theorem c10_actions_taken_log (b : Browser) (parts : List GPart) :
    (processParts b parts).2.1 =
      (parts.filterMap fun p => p.function_call).map
        (fun fc => { action := fc.name, args := fc.args.getD [] }) := by
  induction parts generalizing b with
  | nil => rfl
  | cons p rest ih =>
    cases hp : p.function_call with
    | none => simp [processParts, hp, ih]
    | some fc => simp [processParts, hp, ih, processFunctionCall, mkActionRecord]

/-! ## C1 — per-turn ordering of execution and results -/

/-- C1: for a responder turn with action requests `[A1, ..., An]`, the
executor runs them strictly left to right (the final browser state is
the left fold of the per-call executions over the requests in emitted
order), produces exactly one function response per request carrying one
screenshot blob, in the same order by name, and the initiator turn
bundles those responses in that order — with no hypothesis that any
execution succeeded, so this also covers calls whose execution raised. -/
theorem c1_action_result_ordering (b : Browser) (parts : List GPart) :
    (processParts b parts).2.2.map (fun fr => fr.name) =
      ((parts.filterMap fun p => p.function_call).map fun fc => fc.name) ∧
    (∀ fr ∈ (processParts b parts).2.2, ∃ blob, fr.parts = some [blob]) ∧
    functionResponsesContent (processParts b parts).2.2 =
      { role := Role.user, parts := (processParts b parts).2.2.map mkFRPart } ∧
    (processParts b parts).1 =
      (parts.filterMap fun p => p.function_call).foldl
        (fun bb fc => (processFunctionCall bb fc).1) b := by
  refine ⟨?_, ?_, rfl, ?_⟩
  · induction parts generalizing b with
    | nil => rfl
    | cons p rest ih =>
      cases hp : p.function_call with
      | none => simp [processParts, hp, ih]
      | some fc => simp [processParts, hp, ih, processFunctionCall]
  · induction parts generalizing b with
    | nil => intro fr hfr; cases hfr
    | cons p rest ih =>
      intro fr hfr
      cases hp : p.function_call with
      | none =>
        simp only [processParts, hp] at hfr
        exact ih _ fr hfr
      | some fc =>
        simp only [processParts, hp, List.mem_cons] at hfr
        rcases hfr with h | h
        · subst h
          exact ⟨_, rfl⟩
        · exact ih _ fr h
  · induction parts generalizing b with
    | nil => rfl
    | cons p rest ih =>
      cases hp : p.function_call with
      | none => simp [processParts, hp, ih]
      | some fc => simp [processParts, hp, ih]

/-- C1 witness: a turn whose first action raises (`click_at` without
coordinates) still yields both result segments in emitted order, each
carrying its screenshot. -/
theorem c1_action_result_ordering_witness :
    (processParts demoBrowser demoParts).2.2.map (fun fr => fr.name) =
      ["click_at", "navigate"] ∧
    (processParts demoBrowser demoParts).2.2.map (fun fr => fr.parts) =
      [some [{ mime := "image/png", data := 0 }],
       some [{ mime := "image/png", data := 3 }]] := by
  have h := (c1_action_result_ordering demoBrowser demoParts).1
  exact ⟨h.trans (by decide), by decide⟩

/-! ## C4 — unknown action names -/

/-- C4: an action request whose name is not recognized dispatches no
browser primitive and raises nothing, only logging a warning; the action
is still recorded, a post-action screenshot is still captured into its
result segment, and the loop step on such a turn continues with the
status unchanged (so neither termination nor `ERROR`). -/
theorem c4_unknown_action (name : String) (args : Args) (b : Browser) (st : LoopState)
    (h : name ∉ PREDEFINED_COMPUTER_USE_FUNCTIONS) :
    dispatchAction name args =
      { ops := [], err := none, warnings := ["Unknown action: " ++ name] } ∧
    (processFunctionCall b { name := name, args := some args }).2.1 =
      { action := name, args := args } ∧
    (processFunctionCall b { name := name, args := some args }).2.2.parts =
      some [shoot (processFunctionCall b { name := name, args := some args }).1] ∧
    (∃ st', loopStep (singleCandidateResponse [mkFCPart name args]) st = .next st' ∧
      st'.result.status = st.result.status ∧
      st'.result.actions_taken =
        st.result.actions_taken ++ [{ action := name, args := args }]) := by
  have hne : ∀ s, s ∈ PREDEFINED_COMPUTER_USE_FUNCTIONS → ¬(name = s) :=
    fun s hs e => h (by rw [e]; exact hs)
  refine ⟨?_, ?_, ?_, ?_⟩
  · simp only [dispatchAction]
    rw [if_neg (hne _ (by decide)), if_neg (hne _ (by decide)),
      if_neg (hne _ (by decide)), if_neg (hne _ (by decide)),
      if_neg (hne _ (by decide)), if_neg (hne _ (by decide)),
      if_neg (hne _ (by decide)), if_neg (hne _ (by decide)),
      if_neg (hne _ (by decide)), if_neg (hne _ (by decide)),
      if_neg (hne _ (by decide)), if_neg (hne _ (by decide)),
      if_neg (hne _ (by decide))]
  · rfl
  · rfl
  · exact ⟨_, rfl, rfl, rfl⟩

/-- C4 witness: the theorem at the concrete unknown action
`"fly_to_moon"` dispatched from a concrete loop state. -/
theorem c4_unknown_action_witness :
    dispatchAction ("fly_to_moon") [] =
      { ops := [], err := none, warnings := ["Unknown action: fly_to_moon"] } ∧
    (processFunctionCall demoBrowser { name := "fly_to_moon", args := some [] }).2.1 =
      { action := "fly_to_moon", args := [] } := by
  have h := c4_unknown_action ("fly_to_moon") [] demoBrowser (initLoopState ("t"))
    (by decide)
  exact ⟨h.1, h.2.1⟩

/-- An `Except` that is not `ok` is an `error` carrying some message. -/
theorem errorOfNotOk {e : Except String (Int × Int × Int)} (h : e.isOk = false) :
    ∃ msg, e = .error msg := by
  cases e with
  | ok a => simp [Except.isOk, Except.toBool] at h
  | error msg => exact ⟨msg, rfl⟩

/-! ## C8 — structured-result extraction -/

def demoJsonText : String :=
  "Here are the results: \x7b\"roi_percentage\":412,\"payback_months\":8,\"annual_savings\":847000\x7d Done."

def demoProseText : String :=
  "The roi percentage: 412 is great, payback period: 8 months, annual savings: $847,000 per year."

/-- C8: a text embedding the JSON object
`\x7b"roi_percentage":412,"payback_months":8,"annual_savings":847000\x7d`
extracts exactly that integer triple through the strict path; the prose
variant with no valid JSON extracts the same triple through the regex
fallback; and whenever the strict path fails and any of the three
fallback patterns does not match, the function returns a raised error,
never default values. -/
theorem c8_structured_extraction :
    extract_structured_data_from_response demoJsonText = .ok (412, 8, 847000) ∧
    extract_structured_data_from_response demoProseText = .ok (412, 8, 847000) ∧
    (∀ s : String, strictExtract s = none →
      (searchKeyNum ("roi").toList ("percentage").toList false isDigitChar s.toList = none ∨
       searchKeyNum ("payback").toList ("period").toList false isDigitChar s.toList = none ∨
       searchKeyNum ("annual").toList ("savings").toList true isDigitComma s.toList = none) →
      ∃ msg, extract_structured_data_from_response s = .error msg) := by
  refine ⟨rfl, rfl, ?_⟩
  intro s hstrict hfall
  apply errorOfNotOk
  by_cases hempty : s = ""
  · subst hempty
    rfl
  · unfold extract_structured_data_from_response
    rw [if_neg hempty, hstrict]
    simp only []
    cases hsv : searchKeyNum ("annual").toList ("savings").toList true isDigitComma s.toList with
    | none => rfl
    | some cap =>
      simp only []
      by_cases hds : ((cap.filter fun c => c ≠ ',').isEmpty = true)
      · rw [if_pos hds]
        rfl
      · rw [if_neg hds]
        rcases hfall with h | h | h
        · rw [h]
          rfl
        · cases hroi : searchKeyNum ("roi").toList ("percentage").toList false isDigitChar
              s.toList with
          | none => rfl
          | some r =>
            rw [h]
            rfl
        · rw [h] at hsv
          cases hsv

/-- C8 witness: the error case of the theorem at the concrete input
`"hello"`, which matches neither the JSON pattern nor any fallback. -/
theorem c8_structured_extraction_witness :
    ∃ msg, extract_structured_data_from_response ("hello") = .error msg :=
  c8_structured_extraction.2.2 ("hello") rfl (Or.inl rfl)

/-! ## Pruning lemmas shared by C3 and C9 -/

theorem clearPart_text (p : GPart) : (clearPart p).text = p.text := by
  unfold clearPart
  split <;> rfl

theorem clearPart_inline (p : GPart) : (clearPart p).inline = p.inline := by
  unfold clearPart
  split <;> rfl

theorem clearPart_function_call (p : GPart) :
    (clearPart p).function_call = p.function_call := by
  unfold clearPart
  split <;> rfl

theorem clearPart_frMeta (p : GPart) :
    (clearPart p).function_response.map (fun fr => (fr.name, fr.response)) =
      p.function_response.map (fun fr => (fr.name, fr.response)) := by
  unfold clearPart
  split
  · cases p.function_response <;> rfl
  · rfl

theorem partQualifies_clearPart (p : GPart) : partQualifies (clearPart p) = false := by
  unfold clearPart
  by_cases hq : partQualifies p = true
  · rw [if_pos hq]
    cases hfr : p.function_response with
    | none => simp [partQualifies, hfr]
    | some fr => simp [partQualifies, hfr, frPartsTruthy]
  · rw [if_neg hq]
    exact Bool.eq_false_iff.mpr hq

theorem contentHasScreenshot_clear (c : Content) :
    contentHasScreenshot (clearScreenshotParts c) = false := by
  have hany : (c.parts.map clearPart).any partQualifies = false := by
    rw [List.any_map]
    rw [List.any_eq_false]
    intro p _
    simp [Function.comp, partQualifies_clearPart]
  simp [contentHasScreenshot, clearScreenshotParts, hany]

theorem clear_ne_self (c : Content) (h : contentHasScreenshot c = true) :
    clearScreenshotParts c ≠ c := by
  intro heq
  have h2 := contentHasScreenshot_clear c
  rw [heq, h] at h2
  cases h2

def turnTexts (c : Content) : List String := c.parts.filterMap fun p => p.text

def turnFRMeta (c : Content) : List (String × List (String × String)) :=
  c.parts.filterMap fun p => p.function_response.map fun fr => (fr.name, fr.response)

theorem turnTexts_clear (c : Content) :
    turnTexts (clearScreenshotParts c) = turnTexts c := by
  unfold turnTexts clearScreenshotParts
  rw [List.filterMap_map]
  exact List.filterMap_congr fun p _ => clearPart_text p

theorem turnFRMeta_clear (c : Content) :
    turnFRMeta (clearScreenshotParts c) = turnFRMeta c := by
  unfold turnFRMeta clearScreenshotParts
  rw [List.filterMap_map]
  exact List.filterMap_congr fun p _ => clearPart_frMeta p

theorem cleanupAux_length (n : Nat) (l : List Content) :
    (cleanupAux n l).length = l.length := by
  induction l generalizing n with
  | nil => rfl
  | cons c rest ih =>
    unfold cleanupAux
    split <;> simp [ih]

theorem cleanupAux_get? (l : List Content) : ∀ (n i : Nat) (c : Content),
    l.get? i = some c →
    (cleanupAux n l).get? i =
      some (if contentHasScreenshot c = true ∧
              MAX_RECENT_TURNS_WITH_SCREENSHOTS <
                n + (l.take (i + 1)).countP contentHasScreenshot
            then clearScreenshotParts c else c) := by
  induction l with
  | nil => intro n i c h; cases h
  | cons d rest ih =>
    intro n i c h
    cases i with
    | zero =>
      have hc : d = c := Option.some.inj h
      subst hc
      simp only [cleanupAux]
      by_cases hd : contentHasScreenshot d = true
      · rw [if_pos hd, List.get?_cons_zero]
        have hcount : ((d :: rest).take (0 + 1)).countP contentHasScreenshot = 1 := by
          simp [hd]
        rw [hcount]
        by_cases hcap : MAX_RECENT_TURNS_WITH_SCREENSHOTS < n + 1
        · rw [if_pos hcap, if_pos ⟨hd, hcap⟩]
        · rw [if_neg hcap, if_neg (fun hx => hcap hx.2)]
      · rw [if_neg hd, List.get?_cons_zero]
        rw [if_neg (fun hx => hd hx.1)]
    | succ i =>
      have h2 : rest.get? i = some c := h
      by_cases hd : contentHasScreenshot d = true
      · simp only [cleanupAux]
        rw [if_pos hd, List.get?_cons_succ, ih (n + 1) i c h2]
        have harith : n + 1 + (rest.take (i + 1)).countP contentHasScreenshot =
            n + ((d :: rest).take (i + 1 + 1)).countP contentHasScreenshot := by
          simp only [List.take_succ_cons, List.countP_cons, hd, if_true]
          omega
        rw [harith]
      · simp only [cleanupAux]
        rw [if_neg hd, List.get?_cons_succ, ih n i c h2]
        have harith : (rest.take (i + 1)).countP contentHasScreenshot =
            ((d :: rest).take (i + 1 + 1)).countP contentHasScreenshot := by
          simp [List.take_succ_cons, List.countP_cons, hd]
        rw [harith]

theorem cleanupAux_countP (n : Nat) (l : List Content) :
    (cleanupAux n l).countP contentHasScreenshot =
      min (l.countP contentHasScreenshot)
        (MAX_RECENT_TURNS_WITH_SCREENSHOTS - n) := by
  induction l generalizing n with
  | nil => simp [cleanupAux]
  | cons d rest ih =>
    by_cases hd : contentHasScreenshot d = true
    · simp only [cleanupAux]
      rw [if_pos hd]
      by_cases hcap : MAX_RECENT_TURNS_WITH_SCREENSHOTS < n + 1
      · rw [if_pos hcap, List.countP_cons, ih (n + 1),
          List.countP_cons, contentHasScreenshot_clear d]
        simp only [hd, if_true, Bool.false_eq_true, if_false]
        omega
      · rw [if_neg hcap, List.countP_cons, ih (n + 1), List.countP_cons]
        simp only [hd, if_true]
        omega
    · simp only [cleanupAux]
      rw [if_neg hd, List.countP_cons, ih n, List.countP_cons]
      simp only [hd, Bool.false_eq_true, if_false]
      omega

theorem cleanupAux_changed (n : Nat) (l : List Content) :
    ((cleanupAux n l).zip l).countP (fun p => decide (¬p.1 = p.2)) =
      l.countP contentHasScreenshot -
        (MAX_RECENT_TURNS_WITH_SCREENSHOTS - n) := by
  induction l generalizing n with
  | nil => simp [cleanupAux]
  | cons d rest ih =>
    by_cases hd : contentHasScreenshot d = true
    · simp only [cleanupAux]
      rw [if_pos hd]
      by_cases hcap : MAX_RECENT_TURNS_WITH_SCREENSHOTS < n + 1
      · rw [if_pos hcap, List.zip_cons_cons, List.countP_cons, ih (n + 1),
          List.countP_cons]
        have hne : decide (¬clearScreenshotParts d = d) = true :=
          decide_eq_true (clear_ne_self d hd)
        simp only [hd, if_true, hne]
        omega
      · rw [if_neg hcap, List.zip_cons_cons, List.countP_cons, ih (n + 1),
          List.countP_cons]
        simp only [hd, if_true]
        simp
        omega
    · simp only [cleanupAux]
      rw [if_neg hd, List.zip_cons_cons, List.countP_cons, ih n, List.countP_cons]
      simp [hd]

theorem zip_reverse {α β : Type} (l1 : List α) :
    ∀ l2 : List β, l1.length = l2.length →
      l1.reverse.zip l2.reverse = (l1.zip l2).reverse := by
  induction l1 with
  | nil =>
    intro l2 h
    rw [List.length_nil] at h
    rw [List.eq_nil_of_length_eq_zero h.symm]
    rfl
  | cons x xs ih =>
    intro l2 h
    cases l2 with
    | nil => cases h
    | cons y ys =>
      have hlen : xs.length = ys.length := by
        simpa using h
      simp only [List.reverse_cons]
      rw [List.zip_append (by simpa using hlen), ih ys hlen]
      simp

/-- The central description of `cleanup_old_screenshots`: the turn at
index `i` is cleared exactly when it carries a screenshot and more than
`MAX_RECENT_TURNS_WITH_SCREENSHOTS` screenshot-carrying turns sit at
index `i` or later; otherwise it is returned untouched. -/
theorem cleanup_get? (contents : List Content) (i : Nat) (c : Content)
    (h : contents.get? i = some c) :
    (cleanup_old_screenshots contents).get? i =
      some (if contentHasScreenshot c = true ∧
              MAX_RECENT_TURNS_WITH_SCREENSHOTS <
                (contents.drop i).countP contentHasScreenshot
            then clearScreenshotParts c else c) := by
  have hi : i < contents.length := by
    by_contra hlt
    push_neg at hlt
    rw [List.get?_eq_none.mpr hlt] at h
    cases h
  have hlenR : contents.reverse.length = contents.length := List.length_reverse contents
  have hlenA : (cleanupAux 0 contents.reverse).length = contents.length := by
    rw [cleanupAux_length, hlenR]
  have hgetrev : (cleanup_old_screenshots contents).get? i
      = (cleanupAux 0 contents.reverse).get? (contents.length - 1 - i) := by
    unfold cleanup_old_screenshots
    rw [List.get?_reverse (by rw [hlenA]; exact hi), hlenA]
  have hj : contents.reverse.get? (contents.length - 1 - i) = some c := by
    rw [List.get?_reverse (by omega)]
    rw [show contents.length - 1 - (contents.length - 1 - i) = i from by omega]
    exact h
  rw [hgetrev, cleanupAux_get? contents.reverse 0 (contents.length - 1 - i) c hj]
  have hcount :
      (contents.reverse.take (contents.length - 1 - i + 1)).countP contentHasScreenshot
        = (contents.drop i).countP contentHasScreenshot := by
    rw [List.take_reverse, List.countP_reverse]
    rw [show contents.length - (contents.length - 1 - i + 1) = i from by omega]
  rw [hcount, Nat.zero_add]

theorem cleanup_length (contents : List Content) :
    (cleanup_old_screenshots contents).length = contents.length := by
  unfold cleanup_old_screenshots
  rw [List.length_reverse, cleanupAux_length, List.length_reverse]

theorem cleanup_countP (contents : List Content) :
    (cleanup_old_screenshots contents).countP contentHasScreenshot =
      min (contents.countP contentHasScreenshot) MAX_RECENT_TURNS_WITH_SCREENSHOTS := by
  unfold cleanup_old_screenshots
  rw [List.countP_reverse, cleanupAux_countP, List.countP_reverse, Nat.sub_zero]

theorem cleanup_changed (contents : List Content) :
    ((cleanup_old_screenshots contents).zip contents).countP
        (fun p => decide (¬p.1 = p.2)) =
      contents.countP contentHasScreenshot - MAX_RECENT_TURNS_WITH_SCREENSHOTS := by
  unfold cleanup_old_screenshots
  have hlen : (cleanupAux 0 contents.reverse).length = contents.reverse.length :=
    cleanupAux_length 0 contents.reverse
  have hzip := zip_reverse (cleanupAux 0 contents.reverse) contents.reverse hlen
  rw [List.reverse_reverse] at hzip
  rw [hzip, List.countP_reverse, cleanupAux_changed, List.countP_reverse, Nat.sub_zero]

/-! ## C3 — pruning keeps the most recent screenshot budget -/

/-- C3: when a conversation carries `N` screenshot turns with `N`
greater than the budget (3), pruning keeps the length, leaves exactly 3
turns still carrying screenshots, modifies exactly `N − 3` turns (the
oldest by recency, i.e. those with more than 3 screenshot turns at their
index or later), leaves every other turn untouched, and each modified
turn keeps its texts, its function-response names and url metadata and
its role while losing its image payload. -/
theorem c3_screenshot_pruning (contents : List Content)
    (h : MAX_RECENT_TURNS_WITH_SCREENSHOTS < contents.countP contentHasScreenshot) :
    (cleanup_old_screenshots contents).length = contents.length ∧
    (cleanup_old_screenshots contents).countP contentHasScreenshot =
      MAX_RECENT_TURNS_WITH_SCREENSHOTS ∧
    ((cleanup_old_screenshots contents).zip contents).countP
        (fun p => decide (¬p.1 = p.2)) =
      contents.countP contentHasScreenshot - MAX_RECENT_TURNS_WITH_SCREENSHOTS ∧
    (∀ i c, contents.get? i = some c →
      ((contents.drop i).countP contentHasScreenshot ≤ MAX_RECENT_TURNS_WITH_SCREENSHOTS ∨
        contentHasScreenshot c = false) →
      (cleanup_old_screenshots contents).get? i = some c) ∧
    (∀ i c, contents.get? i = some c →
      contentHasScreenshot c = true →
      MAX_RECENT_TURNS_WITH_SCREENSHOTS < (contents.drop i).countP contentHasScreenshot →
      (cleanup_old_screenshots contents).get? i = some (clearScreenshotParts c) ∧
      turnTexts (clearScreenshotParts c) = turnTexts c ∧
      turnFRMeta (clearScreenshotParts c) = turnFRMeta c ∧
      (clearScreenshotParts c).role = c.role ∧
      contentHasScreenshot (clearScreenshotParts c) = false) := by
  refine ⟨cleanup_length contents, ?_, cleanup_changed contents, ?_, ?_⟩
  · rw [cleanup_countP]
    omega
  · intro i c hget hcond
    rw [cleanup_get? contents i c hget]
    rw [if_neg ?hneg]
    case hneg =>
      rintro ⟨h1, h2⟩
      rcases hcond with hc | hc
      · omega
      · rw [h1] at hc
        cases hc
  · intro i c hget h1 h2
    rw [cleanup_get? contents i c hget, if_pos ⟨h1, h2⟩]
    exact ⟨rfl, turnTexts_clear c, turnFRMeta_clear c, rfl, contentHasScreenshot_clear c⟩

def demoShot : Blob := { mime := "image/png", data := 7 }

def demoFRTurn (nm : String) : Content :=
  { role := Role.user,
    parts := [mkFRPart { name := nm, response := [("url", "u")], parts := some [demoShot] }] }

/-- A conversation with five screenshot-carrying initiator turns. -/
def demoConv : List Content :=
  [ { role := Role.user, parts := [mkTextPart ("task"), mkInlinePart demoShot] },
    modelTurn [mkFCPart ("click_at") []], demoFRTurn ("click_at"),
    modelTurn [mkFCPart ("navigate") []], demoFRTurn ("navigate"),
    modelTurn [mkFCPart ("search") []], demoFRTurn ("search"),
    modelTurn [mkFCPart ("go_back") []], demoFRTurn ("go_back"),
    modelTurn [mkFCPart ("wait_5_seconds") []], demoFRTurn ("wait_5_seconds") ]

/-- C3 witness: the theorem applied to a concrete conversation with five
screenshot turns — after pruning, three retain screenshots and exactly
two turns were modified. -/
theorem c3_screenshot_pruning_witness :
    (cleanup_old_screenshots demoConv).countP contentHasScreenshot = 3 ∧
    ((cleanup_old_screenshots demoConv).zip demoConv).countP
        (fun p => decide (¬p.1 = p.2)) = 2 := by
  have h := c3_screenshot_pruning demoConv (by decide)
  refine ⟨h.2.1, ?_⟩
  rw [h.2.2.1]
  decide

/-! ## C9 — pruning frame condition -/

/-- The only change pruning may make to one part: everything equal,
except that a function response whose name is predefined and whose
payload was non-empty may have had its payload set to `none`. -/
def partFrameOk (orig next : GPart) : Bool :=
  decide (orig.text = next.text) && decide (orig.inline = next.inline) &&
  decide (orig.function_call = next.function_call) &&
  (match orig.function_response, next.function_response with
   | none, none => true
   | some fo, some fn =>
     decide (fo.name = fn.name) && decide (fo.response = fn.response) &&
     (decide (fo.parts = fn.parts) ||
      (decide (fn.parts = (none : Option (List Blob))) &&
       decide (fo.name ∈ PREDEFINED_COMPUTER_USE_FUNCTIONS) &&
       frPartsTruthy fo.parts))
   | _, _ => false)

def turnFrameOk (orig next : Content) : Bool :=
  decide (orig.role = next.role) && decide (orig.parts.length = next.parts.length) &&
  (orig.parts.zip next.parts).all fun p => partFrameOk p.1 p.2

theorem partFrameOk_refl (p : GPart) : partFrameOk p p = true := by
  unfold partFrameOk
  cases p.function_response <;> simp

theorem partFrameOk_clearPart (p : GPart) : partFrameOk p (clearPart p) = true := by
  unfold clearPart
  by_cases hq : partQualifies p = true
  · rw [if_pos hq]
    cases hfr : p.function_response with
    | none =>
      unfold partQualifies at hq
      rw [hfr] at hq
      cases hq
    | some fo =>
      unfold partQualifies at hq
      rw [hfr] at hq
      rw [Bool.and_eq_true] at hq
      unfold partFrameOk
      simp [hfr, hq.1, of_decide_eq_true hq.2]
  · rw [if_neg hq]
    exact partFrameOk_refl p

theorem all_zip_self (l : List GPart) :
    (l.zip l).all (fun p => partFrameOk p.1 p.2) = true := by
  induction l with
  | nil => rfl
  | cons x xs ih => simp [List.zip_cons_cons, partFrameOk_refl, ih]

theorem all_zip_clearPart (l : List GPart) :
    (l.zip (l.map clearPart)).all (fun p => partFrameOk p.1 p.2) = true := by
  induction l with
  | nil => rfl
  | cons x xs ih => simp [List.zip_cons_cons, partFrameOk_clearPart, ih]

theorem turnFrameOk_refl (c : Content) : turnFrameOk c c = true := by
  unfold turnFrameOk
  simp [all_zip_self]

theorem turnFrameOk_clear (c : Content) :
    turnFrameOk c (clearScreenshotParts c) = true := by
  unfold turnFrameOk clearScreenshotParts
  simp [all_zip_clearPart]

theorem all_zip_of_get? {α β : Type} (f : α × β → Bool) :
    ∀ (l1 : List α) (l2 : List β),
    (∀ i a b, l1.get? i = some a → l2.get? i = some b → f (a, b) = true) →
    (l1.zip l2).all f = true := by
  intro l1
  induction l1 with
  | nil => intro l2 _; rfl
  | cons x xs ih =>
    intro l2 h
    cases l2 with
    | nil => rfl
    | cons y ys =>
      rw [List.zip_cons_cons, List.all_cons, Bool.and_eq_true]
      exact ⟨h 0 x y rfl rfl, ih ys fun i a b ha hb => h (i + 1) a b ha hb⟩

/-- C9: pruning preserves the conversation length and relates every
original turn to its pruned counterpart by `turnFrameOk`: role, part
count, texts, inline images and function calls are unchanged, and a
function response either is unchanged or — only when its name is in the
predefined computer-use list and its payload was non-empty — has its
payload cleared while its name and url metadata stay intact.  In
particular the first user turn (task text + initial screenshot) and all
textual metadata survive every invocation unchanged. -/
theorem c9_pruning_frame (contents : List Content) :
    (cleanup_old_screenshots contents).length = contents.length ∧
    (contents.zip (cleanup_old_screenshots contents)).all
      (fun p => turnFrameOk p.1 p.2) = true := by
  refine ⟨cleanup_length contents, ?_⟩
  apply all_zip_of_get?
  intro i a b ha hb
  rw [cleanup_get? contents i a ha] at hb
  have hb2 := (Option.some.inj hb).symm
  by_cases hcond : contentHasScreenshot a = true ∧
      MAX_RECENT_TURNS_WITH_SCREENSHOTS <
        (contents.drop i).countP contentHasScreenshot
  · rw [if_pos hcond] at hb2
    rw [hb2]
    exact turnFrameOk_clear a
  · rw [if_neg hcond] at hb2
    rw [hb2]
    exact turnFrameOk_refl a

/-! ## C5 — terminal success path -/

def demoTextScript (_ : Nat) : ModelResult :=
  singleCandidateResponse [mkTextPart ("A"), mkTextPart ("B")]

/-- C5 counterexample: the claim says `final_response` is the
concatenation of the turn's text segments, but a text-only turn with
segments `["A", "B"]` completes with `"A B"` (the source joins with a
space), which differs from the concatenation `"AB"`. -/
theorem c5_completion_counterexample :
    (execute_browser_task demoTextScript ("t")).status = Status.completed ∧
    (execute_browser_task demoTextScript ("t")).final_response = "A B" ∧
    "A" ++ "B" = "AB" ∧ ("A B" : String) ≠ "AB" := by
  exact ⟨rfl, rfl, rfl, by decide⟩

def demoNavResp : ModelResult :=
  singleCandidateResponse [mkFCPart ("navigate") [("url", AValue.str ("wikipedia.org"))]]

def demoTypeResp : ModelResult :=
  singleCandidateResponse
    [mkFCPart ("type_text_at")
      [("x", AValue.num 500), ("y", AValue.num 50), ("text", AValue.str ("X"))]]

def demoDoneResp : ModelResult := singleCandidateResponse [mkTextPart ("Done")]

/-- Two actions, then a text-only `"Done"` turn. -/
def demoDoneScript (k : Nat) : ModelResult :=
  if k = 0 then demoNavResp else if k = 1 then demoTypeResp else demoDoneResp

/-- The state the loop stops in on the terminal success path. -/
def completedState (st : LoopState) (cand : Candidate) : LoopState :=
  let res1 := { st.result with
    status := Status.completed,
    final_response := joinSpace ((candParts cand).filterMap truthyText) }
  let contents1 :=
    match cand.content with
    | some c => st.contents ++ [c]
    | none => st.contents
  { st with contents := contents1, result := res1 }

/-- C5 (amended): for every model response not flagged as a malformed
function call whose responder turn carries no action requests, the loop
step stops with status `completed` and `final_response` equal to the
space-join of the turn's non-empty text segments, leaving the action log
unchanged; and the two-actions-then-"Done" scenario ends completed with
`final_response = "Done"` and two recorded actions. -/
theorem c5_completion_amended :
    (∀ (st : LoopState) (cand : Candidate) (rest : List Candidate),
      ¬cand.finishReason = some ("MALFORMED_FUNCTION_CALL") →
      partsHaveFC (candParts cand) = false →
      ∃ st', loopStep (.ok { candidates := cand :: rest }) st = .stop st' ∧
        st'.result.status = Status.completed ∧
        st'.result.final_response = joinSpace ((candParts cand).filterMap truthyText) ∧
        st'.result.actions_taken = st.result.actions_taken) ∧
    (execute_browser_task demoDoneScript ("search for X")).status = Status.completed ∧
    (execute_browser_task demoDoneScript ("search for X")).final_response = "Done" ∧
    (execute_browser_task demoDoneScript ("search for X")).actions_taken.length = 2 := by
  refine ⟨?_, rfl, rfl, rfl⟩
  intro st cand rest hmal hfc
  have hstep : loopStep (.ok { candidates := cand :: rest }) st =
      .stop (completedState st cand) := by
    simp only [loopStep]
    rw [if_neg (fun hx => hmal hx.1), if_pos hfc]
    rfl
  exact ⟨completedState st cand, hstep, rfl, rfl, rfl⟩

def demoDoneCand : Candidate :=
  { content := some (modelTurn [mkTextPart ("Done")]), finishReason := none }

/-- C5 witness: the amended step theorem applied at a concrete
in-progress state and a concrete non-malformed text-only candidate. -/
theorem c5_completion_amended_witness :
    ∃ st', loopStep (.ok { candidates := [demoDoneCand] }) (initLoopState ("t")) =
        .stop st' ∧
      st'.result.status = Status.completed ∧
      st'.result.final_response =
        joinSpace ((candParts demoDoneCand).filterMap truthyText) ∧
      st'.result.actions_taken = (initLoopState ("t")).result.actions_taken :=
  c5_completion_amended.1 (initLoopState ("t")) demoDoneCand [] (by decide) (by decide)

/-! ## C6 — turn cap -/

/-- The records one model response contributes to `actions_taken`. -/
def turnRecords (m : ModelResult) : List ActionRecord :=
  match m with
  | .ok resp =>
    match resp.candidates with
    | cand :: _ =>
      ((candParts cand).filterMap fun p => p.function_call).map
        (fun fc => { action := fc.name, args := fc.args.getD [] })
    | [] => []
  | .err _ => []

/-- The response has a candidate whose turn carries at least one action
request. -/
def actsEvery (m : ModelResult) : Bool :=
  match m with
  | .ok resp =>
    match resp.candidates with
    | cand :: _ => partsHaveFC (candParts cand)
    | [] => false
  | .err _ => false

/-- The state after one acting iteration (the `.next` branch of
`loopStep` on a turn with function calls). -/
def actingStep (st : LoopState) (cand : Candidate) : LoopState :=
  let turn := processParts st.browser (candParts cand)
  let contents1 :=
    match cand.content with
    | some c => st.contents ++ [c]
    | none => st.contents
  { st with
    contents := cleanup_old_screenshots
      (contents1 ++ [functionResponsesContent turn.2.2]),
    browser := turn.1,
    result := { st.result with
      actions_taken := st.result.actions_taken ++ turn.2.1 } }

theorem loopStep_acting (st1 : LoopState) (resp : MResponse) (cand : Candidate)
    (rest : List Candidate) (hcand : resp.candidates = cand :: rest)
    (hfc : partsHaveFC (candParts cand) = true) :
    loopStep (.ok resp) st1 = .next (actingStep st1 cand) := by
  simp only [loopStep, hcand]
  rw [if_neg (by simp [hfc]), if_neg (by simp [hfc])]
  rfl

/-- C6: for every model script that emits at least one action request on
every call, the agent loop at any fuel (15 in `execute_browser_task`,
10 in the local test variant) never reaches `COMPLETED`: it makes
exactly `fuel` model calls, ends with the status it started in
(`in_progress`), and its `actions_taken` is the starting log plus the
concatenation of the records emitted by each of the `fuel` turns, in
order. -/
theorem c6_turn_cap (model : Nat → ModelResult) (fuel : Nat) (st : LoopState)
    (hm : ∀ k, actsEvery (model k) = true)
    (hs : st.result.status = Status.in_progress) :
    (agentLoop model fuel st).result.status = Status.in_progress ∧
    (agentLoop model fuel st).result.status ≠ Status.completed ∧
    (agentLoop model fuel st).calls = st.calls + fuel ∧
    (agentLoop model fuel st).result.actions_taken =
      st.result.actions_taken ++
        ((List.range fuel).map fun j => turnRecords (model (st.calls + j))).join := by
  induction fuel generalizing st with
  | zero =>
    refine ⟨hs, ?_, ?_, ?_⟩
    · show st.result.status ≠ Status.completed
      rw [hs]
      decide
    · show st.calls = st.calls + 0
      omega
    · show st.result.actions_taken = st.result.actions_taken ++ (([] : List (List ActionRecord)).join)
      simp
  | succ fuel ih =>
    have h0 := hm st.calls
    cases hm0 : model st.calls with
    | err e =>
      rw [hm0] at h0
      simp [actsEvery] at h0
    | ok resp =>
      rw [hm0] at h0
      cases hcand : resp.candidates with
      | nil =>
        simp [actsEvery, hcand] at h0
      | cons cand rest =>
        have hfc : partsHaveFC (candParts cand) = true := by
          simpa [actsEvery, hcand] using h0
        have heq : agentLoop model (fuel + 1) st =
            agentLoop model fuel (actingStep { st with calls := st.calls + 1 } cand) := by
          show (match loopStep (model st.calls) { st with calls := st.calls + 1 } with
            | .stop s => s
            | .next s => agentLoop model fuel s) = _
          rw [hm0, loopStep_acting { st with calls := st.calls + 1 } resp cand rest hcand hfc]
        have hA := ih (actingStep { st with calls := st.calls + 1 } cand)
          (show _ = Status.in_progress from hs)
        have hAc : (actingStep { st with calls := st.calls + 1 } cand).calls = st.calls + 1 := rfl
        have hrec : turnRecords (model st.calls) =
            ((candParts cand).filterMap fun p => p.function_call).map
              (fun fc => { action := fc.name, args := fc.args.getD [] }) := by
          rw [hm0]
          simp only [turnRecords, hcand]
        have hAa : (actingStep { st with calls := st.calls + 1 } cand).result.actions_taken =
            st.result.actions_taken ++ turnRecords (model st.calls) := by
          show st.result.actions_taken ++
            (processParts st.browser (candParts cand)).2.1 = _
          rw [c10_actions_taken_log, hrec]
        refine ⟨?_, ?_, ?_, ?_⟩
        · rw [heq]
          exact hA.1
        · rw [heq]
          exact hA.2.1
        · rw [heq, hA.2.2.1, hAc]
          omega
        · rw [heq, hA.2.2.2, hAa, hAc]
          have hfun : (fun j => turnRecords (model (st.calls + 1 + j))) =
              (fun j => turnRecords (model (st.calls + Nat.succ j))) := by
            funext j
            rw [show st.calls + 1 + j = st.calls + Nat.succ j from by omega]
          rw [hfun, List.range_succ_eq_map, List.map_cons, List.map_map]
          simp [Function.comp_def, List.append_assoc]

def demoActResp : ModelResult :=
  singleCandidateResponse [mkFCPart ("wait_5_seconds") []]

/-- C6 witness: a model that requests `wait_5_seconds` on every call,
run with the 15-turn cap of `execute_browser_task` from its initial
state: the loop ends still `in_progress` after exactly 15 model calls,
with one recorded action per turn. -/
theorem c6_turn_cap_witness :
    (agentLoop (fun _ => demoActResp) 15 (initLoopState ("t"))).result.status =
      Status.in_progress ∧
    (agentLoop (fun _ => demoActResp) 15 (initLoopState ("t"))).calls = 15 ∧
    (agentLoop (fun _ => demoActResp) 15
        (initLoopState ("t"))).result.actions_taken.length = 15 := by
  have h := c6_turn_cap (fun _ => demoActResp) 15 (initLoopState ("t"))
    (fun _ => rfl) rfl
  refine ⟨h.1, h.2.2.1, ?_⟩
  rw [h.2.2.2]
  decide
